import Mathlib

/-!
Verification of the terminal chat client in src/main.rs (crate bd_llm_tui).

The development shallowly embeds the parts of the program that the checked
properties talk about: the conversation log and its append operation
(`App::handle_new_message`), the body of the spawned request task inside
`App::send_request`, the synchronous part of `App::send_request`, input
history navigation (`App::navigate_history` and the Up/Down arms of the
main event loop), the Help and ModelSelect modal key handling, the scroll
controller (`App::scroll_to_bottom`, `App::scroll`) and the word-wrapping
routine (`App::wrap_text`).

Modelling conventions:
- Rust `String` values are modelled as Lean `String`; the text fed to the
  wrapping routine is modelled as `List Char` so that splitting and
  chunking can be stated positionally.  `str::len` in the source is a
  UTF-8 byte count; the embedding computes the same count with `lenUtf8`
  (the translation of `char::len_utf8`), while line lengths are measured
  in characters.
- The external collaborators (HTTP transport, `serde_json` parser) are
  inputs of the embedded functions: the spawned task is a pure function of
  the transport/parse outcome (`RequestOutcome`).
- Fallible and partial operations are made total exactly as the source
  resolves them (`serde_json`'s infallible `Value` indexing returns null
  for missing members, so `Json.getKey`/`Json.getIdx` return `Json.null`).
-/

namespace LlmTui

/-- A chat message, translating `struct Message` (role, content, timestamp). -/
structure Message where
  role : String
  content : String
  timestamp : String
deriving DecidableEq

/-- The reserved content of the transient loading entry pushed by
`App::send_request` and tested by `App::handle_new_message`. -/
def pendingSentinel : String := "正在等待响应..."

/-- The tail-removal step of `App::handle_new_message`: if the last entry's
content equals the pending sentinel, pop it (the source checks only the
content, not the role). -/
def popPendingTail (h : List Message) : List Message :=
  match h.getLast? with
  | some last => if last.content = pendingSentinel then h.dropLast else h
  | none => h

/-- History effect of `App::handle_new_message`: remove a pending tail, then
push the new message.  The scroll-offset recomputation in the same method is
the clamp modelled by `scrollToBottom` below, and the `is_loading` clear is
tracked by the callers that need it. -/
def handleNewMessage (h : List Message) (m : Message) : List Message :=
  popPendingTail h ++ [m]

/-- Placeholder test following the specification's words: the data model
describes the pending placeholder as a transient SYSTEM message carrying the
reserved sentinel content.  The code itself tests only the content; this
definition exists to compare the two notions. -/
def specIsPendingPlaceholder (m : Message) : Bool :=
  m.role == "system" && m.content == pendingSentinel

/-- A JSON value, as consumed from the response body (`serde_json::Value`). -/
inductive Json where
  | null : Json
  | bool (b : Bool) : Json
  | num (n : Int) : Json
  | str (s : String) : Json
  | arr (xs : List Json) : Json
  | obj (kvs : List (String × Json)) : Json

/-- `value["key"]` of `serde_json`: member of an object, `null` otherwise. -/
def Json.getKey (j : Json) (k : String) : Json :=
  match j with
  | .obj kvs =>
    match kvs.lookup k with
    | some v => v
    | none => .null
  | _ => .null

/-- `value[i]` of `serde_json`: element of an array, `null` otherwise. -/
def Json.getIdx (j : Json) (i : Nat) : Json :=
  match j with
  | .arr xs => xs.getD i .null
  | _ => .null

/-- `Value::as_str`. -/
def Json.asStr : Json → Option String
  | .str s => some s
  | _ => none

/-- The extraction `json["choices"][0]["message"]["content"].as_str()`
performed on a parsed response body. -/
def extractContent (j : Json) : Option String :=
  ((((j.getKey "choices").getIdx 0).getKey "message").getKey "content").asStr

/-- Outcome of the network interaction seen by the spawned task: the send
fails, the body read fails, the body fails to parse, or it parses to a
JSON value. -/
inductive RequestOutcome where
  | sendFail (e : String) : RequestOutcome
  | bodyFail (e : String) : RequestOutcome
  | parseFail : RequestOutcome
  | parsed (j : Json) : RequestOutcome

/-- The message (if any) that the task spawned by `App::send_request`
delivers through the channel, as a function of the transport outcome.
Mirrors the nested match on `client.post(..).send().await`,
`response.text().await`, `serde_json::from_str` and the content extraction:
note that the two inner `if let Ok`s have no else arm, so a parse failure
or a missing field delivers nothing. -/
def requestTask (o : RequestOutcome) (ts : String) : Option Message :=
  match o with
  | .sendFail e => some ⟨"system", "请求错误: " ++ e, ts⟩
  | .bodyFail e => some ⟨"system", "响应解析错误: " ++ e, ts⟩
  | .parseFail => none
  | .parsed j =>
    match extractContent j with
    | some content => some ⟨"assistant", content, ts⟩
    | none => none

/-- The application fields read or written by the synchronous part of
`App::send_request`. -/
structure AppState where
  input : String
  authToken : String
  history : List Message
  inputHistory : List String
  inputHistoryIndex : Option Nat
  currentInput : String
  isLoading : Bool
deriving DecidableEq

/-- Result of the synchronous part of `App::send_request`: the mutated
state, whether a background task was spawned, and whether the method
returned `Ok` (it does on every path of the modelled portion). -/
structure SubmitResult where
  state : AppState
  spawned : Bool
  retOk : Bool
deriving DecidableEq

/-- The system message produced when the stored token is empty. -/
def authErrorMsg (ts : String) : Message :=
  ⟨"system", "错误: 请先配置API认证令牌", ts⟩

/-- Synchronous part of `App::send_request` (up to `tokio::spawn`): with an
empty token it appends one error message and returns; otherwise it records
input history (if non-empty and not a duplicate of the last entry), resets
navigation, clears the input, appends the user message and the pending
placeholder, sets the loading flag and spawns the request task. -/
def sendRequest (ts : String) (app : AppState) : SubmitResult :=
  if app.authToken = "" then
    { state := { app with history := handleNewMessage app.history (authErrorMsg ts) },
      spawned := false, retOk := true }
  else
    let inputHistory1 :=
      if app.input.trim ≠ "" ∧ app.inputHistory.getLast? ≠ some app.input then
        app.inputHistory ++ [app.input]
      else app.inputHistory
    let h1 := handleNewMessage app.history ⟨"user", app.input, ts⟩
    let h2 := handleNewMessage h1 ⟨"system", pendingSentinel, ts⟩
    { state :=
        { app with
          input := ""
          inputHistory := inputHistory1
          inputHistoryIndex := none
          currentInput := ""
          history := h2
          isLoading := true },
      spawned := true, retOk := true }

/-- The fields touched by `App::navigate_history` and by the Up/Down arms of
the main loop when the input box is focused. -/
structure NavState where
  input : String
  inputHistory : List String
  inputHistoryIndex : Option Nat
  currentInput : String
deriving DecidableEq

/-- `App::navigate_history`: with a cursor set, Up decrements (stopping at
0) and Down increments (stopping at the last index); with no cursor it
saves the draft and starts at the newest (Up) or oldest (Down) entry; the
input is then replaced by the entry under the cursor.  The source indexes
`input_history[index]` directly; the cursor is always in range, and the
embedding uses `getD` with a default that is never read. -/
def navigateHistory (up : Bool) (s : NavState) : NavState :=
  if s.inputHistory.isEmpty then s
  else
    let s1 :=
      match s.inputHistoryIndex with
      | some idx =>
        if up = true ∧ 0 < idx then
          { s with inputHistoryIndex := some (idx - 1) }
        else if up = false ∧ idx < s.inputHistory.length - 1 then
          { s with inputHistoryIndex := some (idx + 1) }
        else s
      | none =>
        { s with currentInput := s.input,
                 inputHistoryIndex := some (if up then s.inputHistory.length - 1 else 0) }
    match s1.inputHistoryIndex with
    | some idx => { s1 with input := s1.inputHistory.getD idx "" }
    | none => s1

/-- The Up arm of the main loop with the input box focused. -/
def inputUpKey (s : NavState) : NavState := navigateHistory true s

/-- The Down arm of the main loop with the input box focused: navigate when
a cursor is set, otherwise restore the saved draft and clear it. -/
def inputDownKey (s : NavState) : NavState :=
  if s.inputHistoryIndex.isSome then navigateHistory false s
  else { s with input := s.currentInput, currentInput := "" }

/-- A key code as dispatched by the main loop (`crossterm::event::KeyCode`);
the Help and ModelSelect branches match on the code alone. -/
inductive Key where
  | enter : Key
  | tab : Key
  | up : Key
  | down : Key
  | esc : Key
  | backspace : Key
  | char (c : Char) : Key
  | other : Key
deriving DecidableEq

/-- The Help branch of the main loop: the new value of `show_help` after a
key press while Help is open.  Only `Esc` and `Char h` close it. -/
def helpStep (k : Key) (showHelp : Bool) : Bool :=
  match k with
  | .esc => false
  | .char c => if c = 'h' then false else showHelp
  | _ => showHelp

/-- The fixed model catalog `AVAILABLE_MODELS`. -/
def AVAILABLE_MODELS : List String := [
  "ernie-4.0-8k-latest",
  "ernie-4.0-8k-preview",
  "ernie-4.0-8k",
  "ernie-4.0-turbo-8k-latest",
  "ernie-4.0-turbo-8k-preview",
  "ernie-4.0-turbo-8k",
  "ernie-4.0-turbo-128k",
  "ernie-3.5-8k-preview",
  "ernie-3.5-8k",
  "ernie-3.5-128k",
  "ernie-speed-8k",
  "ernie-speed-128k",
  "ernie-speed-pro-128k",
  "ernie-lite-8k",
  "ernie-lite-pro-128k",
  "ernie-tiny-8k",
  "ernie-char-8k",
  "ernie-char-fiction-8k",
  "ernie-novel-8k",
  "deepseek-v3",
  "deepseek-r1"]

/-- The fields touched by the ModelSelect branch of the main loop. -/
structure ModelUIState where
  currentModel : String
  showModelSelect : Bool
  modelSelectIndex : Nat
  history : List Message
deriving DecidableEq

/-- The ModelSelect branch of the main loop: Up/Down move the selection
index within the catalog bounds, Enter commits the selection, pushes a
system confirmation message (a plain push, not `handle_new_message`) and
closes the modal, Esc closes the modal. -/
def modelSelectStep (ts : String) (k : Key) (st : ModelUIState) : ModelUIState :=
  match k with
  | .up =>
    if 0 < st.modelSelectIndex then
      { st with modelSelectIndex := st.modelSelectIndex - 1 }
    else st
  | .down =>
    if st.modelSelectIndex < AVAILABLE_MODELS.length - 1 then
      { st with modelSelectIndex := st.modelSelectIndex + 1 }
    else st
  | .enter =>
    let newModel := AVAILABLE_MODELS.getD st.modelSelectIndex ""
    { st with currentModel := newModel,
              showModelSelect := false,
              history := st.history ++ [⟨"system", "已切换到模型: " ++ newModel, ts⟩] }
  | .esc => { st with showModelSelect := false }
  | _ => st

/-- `App::scroll_to_bottom`: clamp the offset to the bottom of the content.
The previous offset is never read; it is still a parameter to state that
the result is independent of it. -/
def scrollToBottom (contentHeight viewportHeight _offsetPrev : Nat) : Nat :=
  if viewportHeight < contentHeight then contentHeight - viewportHeight else 0

/-- `App::scroll`: a saturating one-line move of the `u16` offset. -/
def scroll (up : Bool) (offset : Nat) : Nat :=
  if up then offset - 1 else min (offset + 1) 65535

/-- `char::len_utf8` of Rust: the UTF-8 byte count of one scalar value;
`str::len` sums these. -/
def lenUtf8 (c : Char) : Nat :=
  if c.toNat < 0x80 then 1
  else if c.toNat < 0x800 then 2
  else if c.toNat < 0x10000 then 3
  else 4

/-- `str::len`: the UTF-8 byte length of a character sequence. -/
def utf8Len (w : List Char) : Nat := (w.map lenUtf8).sum

/-- `char::is_whitespace` of Rust: membership in the Unicode White_Space
set. -/
def rustIsWhitespace (c : Char) : Bool :=
  (9 ≤ c.toNat && c.toNat ≤ 13) || c.toNat == 32 || c.toNat == 133 ||
  c.toNat == 160 || c.toNat == 0x1680 ||
  (0x2000 ≤ c.toNat && c.toNat ≤ 0x200A) || c.toNat == 0x2028 ||
  c.toNat == 0x2029 || c.toNat == 0x202F || c.toNat == 0x205F ||
  c.toNat == 0x3000

/-- Accumulator pass of `str::split_whitespace`: maximal runs of
non-whitespace characters, in order, with no empty words. -/
def splitWsAux : List Char → List Char → List (List Char)
  | [], acc => if acc.isEmpty then [] else [acc.reverse]
  | c :: rest, acc =>
    if rustIsWhitespace c then
      (if acc.isEmpty then [] else [acc.reverse]) ++ splitWsAux rest []
    else splitWsAux rest (c :: acc)

/-- `str::split_whitespace`. -/
def splitWs (s : List Char) : List (List Char) := splitWsAux s []

/-- Strip one trailing carriage return (`strip_suffix` of a line body in
`str::lines`). -/
def stripTrailingCR (l : List Char) : List Char :=
  match l.getLast? with
  | some c => if c = '\r' then l.dropLast else l
  | none => l

/-- Worker of `str::lines`: split inclusively at every newline, stripping
the newline and one carriage return before it; a final fragment without a
terminator is kept as is, and a terminating newline opens no further
line. -/
def rustLinesGo : List Char → List Char → List (List Char)
  | [], acc => if acc.isEmpty then [] else [acc.reverse]
  | c :: rest, acc =>
    if c = '\n' then stripTrailingCR acc.reverse :: rustLinesGo rest []
    else rustLinesGo rest (c :: acc)

/-- `str::lines`. -/
def rustLines (s : List Char) : List (List Char) := rustLinesGo s []

/-- Fueled worker for the hard-split loop of `App::wrap_text` (`while
chars.peek().is_some() { take(width) }`).  The source loop consumes the
word by `width`-character steps; the fuel is the word length, which
suffices whenever `1 ≤ width` (with `width = 0` the source loop would not
terminate, and the claims assume `1 ≤ width`). -/
def chunksOfGo (width : Nat) : Nat → List Char → List (List Char)
  | _, [] => []
  | 0, _ :: _ => []
  | fuel + 1, c :: rest =>
    (c :: rest).take width :: chunksOfGo width fuel ((c :: rest).drop width)

/-- The hard-split of an over-long word into `width`-character chunks. -/
def chunksOf (width : Nat) (w : List Char) : List (List Char) :=
  chunksOfGo width w.length w

/-- One iteration of the word loop of `App::wrap_text` on the pair
(flushed lines, current line): mirrors the comparison
`current_line.len() + word.len() + 1 > width` (byte lengths), the flush of
a non-empty current line, the hard split of a word longer than `width`
and the space-separated append. -/
def pushWord (width : Nat) (st : List (List Char) × List Char)
    (word : List Char) : List (List Char) × List Char :=
  if width < utf8Len st.2 + utf8Len word + 1 then
    if width < utf8Len word then
      ((if st.2.isEmpty then st.1 else st.1 ++ [st.2]) ++ chunksOf width word, [])
    else
      ((if st.2.isEmpty then st.1 else st.1 ++ [st.2]), word)
  else
    (st.1, if st.2.isEmpty then word else st.2 ++ ' ' :: word)

/-- The per-line body of `App::wrap_text`: fold the words of one input
line, then flush a non-empty remainder. -/
def wrapLine (width : Nat) (words : List (List Char)) : List (List Char) :=
  let st := words.foldl (pushWord width) ([], [])
  if st.2.isEmpty then st.1 else st.1 ++ [st.2]

/-- `App::wrap_text`: every input line (as split by `str::lines`) is
wrapped independently; the output is the sequence of produced lines (each
terminated by a newline in the source's output string). -/
def wrapText (width : Nat) (s : List Char) : List (List Char) :=
  (rustLines s).flatMap (fun l => wrapLine width (splitWs l))

/-- Concrete states used by the input-history trace of the claims: history
`a`, `b`, `c`, draft `d`, no cursor. -/
def c3Start : NavState := ⟨"d", ["a", "b", "c"], none, ""⟩

def c3S1 : NavState := inputUpKey c3Start

def c3S2 : NavState := inputUpKey c3S1

def c3S3 : NavState := inputUpKey c3S2

def c3S4 : NavState := inputUpKey c3S3

def c3S5 : NavState := inputDownKey c3S4

def c3S6 : NavState := inputDownKey c3S5

def c3S7 : NavState := inputDownKey c3S6

/-- A concrete application state with a non-empty token. -/
def c1App : AppState := ⟨"hello", "tok", [], [], none, "", false⟩

/-- A concrete application state with an empty token. -/
def c4App : AppState := ⟨"hello", "", [], [], none, "", false⟩

/-- A concrete ModelSelect state positioned at the last catalog entry. -/
def mcSt0 : ModelUIState := ⟨"deepseek-r1", true, AVAILABLE_MODELS.length - 1, []⟩

/-- A concrete pending placeholder as the source creates it. -/
def c5Placeholder : Message := ⟨"system", pendingSentinel, "00:00:00"⟩

/-- A concrete ordinary message. -/
def c5UserMsg : Message := ⟨"user", "hi", "00:00:01"⟩

/-- A concrete navigation state with typed input and no active navigation. -/
def c9State : NavState := ⟨"typed text", ["old"], none, ""⟩

/-- A concrete non-placeholder message used as a log tail. -/
def c10New : Message := ⟨"assistant", "ok", "00:00:01"⟩

/-! ## Theorems -/

/-- C1 counterexample: when the response body is valid JSON but lacks
`choices[0].message.content` (here the empty object), the spawned task
delivers no message at all, contradicting the claim that a system-role
error message is delivered and that the task never delivers zero
messages. -/
theorem claim_C1_counterexample :
    requestTask (RequestOutcome.parsed (Json.obj [])) "00:00:00" = none := rfl

/-- C1 as amended: per submission with a non-empty token exactly one task
is spawned, and that task delivers at most one message: an assistant-role
message with the extracted content when the body parses and the field is a
string; a system-role error on a send failure or a body-read failure; and
nothing at all on a parse failure or a missing field. -/
theorem claim_C1_amended (o : RequestOutcome) (ts : String) :
    (∀ m : Message, requestTask o ts = some m →
        (m.role = "assistant" ∧
          ∃ j, o = RequestOutcome.parsed j ∧ extractContent j = some m.content) ∨
        (m.role = "system" ∧
          ((∃ e, o = RequestOutcome.sendFail e) ∨ ∃ e, o = RequestOutcome.bodyFail e))) ∧
    (requestTask o ts = none ↔
        o = RequestOutcome.parseFail ∨
        ∃ j, o = RequestOutcome.parsed j ∧ extractContent j = none) ∧
    (∀ (ts2 : String) (app : AppState), ¬ app.authToken = "" →
        (sendRequest ts2 app).spawned = true) := by
  refine ⟨?_, ?_, ?_⟩
  · intro m hm
    cases o with
    | sendFail e =>
      refine Or.inr ⟨?_, Or.inl ⟨e, rfl⟩⟩
      simp only [requestTask, Option.some.injEq] at hm
      rw [← hm]
    | bodyFail e =>
      refine Or.inr ⟨?_, Or.inr ⟨e, rfl⟩⟩
      simp only [requestTask, Option.some.injEq] at hm
      rw [← hm]
    | parseFail => simp [requestTask] at hm
    | parsed j =>
      left
      cases hc : extractContent j with
      | none => simp [requestTask, hc] at hm
      | some content =>
        simp only [requestTask, hc, Option.some.injEq] at hm
        exact ⟨by rw [← hm], j, rfl, by rw [← hm]; exact hc⟩
  · cases o with
    | sendFail e => simp [requestTask]
    | bodyFail e => simp [requestTask]
    | parseFail => simp [requestTask]
    | parsed j =>
      cases hc : extractContent j with
      | none => simp [requestTask, hc]
      | some content => simp [requestTask, hc]
  · intro ts2 app h
    simp [sendRequest, h]

/-- C1 witness: a submission with a non-empty stored token spawns the
background task. -/
theorem claim_C1_witness : (sendRequest "00:00:00" c1App).spawned = true :=
  (claim_C1_amended RequestOutcome.parseFail "00:00:00").2.2 "00:00:00" c1App (by decide)

/-- C2 counterexample: with the Help modal open, pressing the character
key x leaves Help open, contradicting the claim that any key closes it. -/
theorem claim_C2_counterexample : helpStep (Key.char 'x') true = true := rfl

/-- C2 as amended: with the Help modal open, a key closes Help (returning
the state machine to Normal) exactly when it is Escape or the character
key h; every other key leaves Help open. -/
theorem claim_C2_amended_thm (k : Key) :
    helpStep k true = false ↔ (k = Key.esc ∨ k = Key.char 'h') := by
  cases k with
  | esc => simp [helpStep]
  | char c =>
    by_cases hc : c = 'h'
    · subst hc; simp [helpStep]
    · simp [helpStep, hc]
  | enter => simp [helpStep]
  | tab => simp [helpStep]
  | up => simp [helpStep]
  | down => simp [helpStep]
  | backspace => simp [helpStep]
  | other => simp [helpStep]

/-- C2 witness: Escape closes the Help modal. -/
theorem claim_C2_witness : helpStep Key.esc true = false :=
  (claim_C2_amended_thm Key.esc).mpr (Or.inl rfl)

/-- C3 counterexample: starting from history a, b, c with draft d, the key
sequence up, up, up, up, down, down, down leaves the input at c with the
navigation cursor still set (and the draft still saved), contradicting the
claim that the final down restores the draft and clears the cursor. -/
theorem claim_C3_counterexample :
    c3S7.input = "c" ∧ c3S7.inputHistoryIndex = some 2 ∧ c3S7.currentInput = "d" ∧
    ¬(c3S7.input = "d" ∧ c3S7.inputHistoryIndex = none) := by decide

/-- C3 as amended: three ups yield c, b, a; a fourth up stays at a; down
yields b, then c; one further down leaves the input at c and keeps the
cursor at the last entry — the saved draft is not restored (that happens
only when down is pressed while no cursor is set). -/
theorem claim_C3_amended_thm :
    c3S1.input = "c" ∧ c3S2.input = "b" ∧ c3S3.input = "a" ∧ c3S4.input = "a" ∧
    c3S5.input = "b" ∧ c3S6.input = "c" ∧
    c3S7.input = "c" ∧ c3S7.inputHistoryIndex = some 2 ∧ c3S7.currentInput = "d" := by
  decide

/-- C4: submitting with an empty stored token spawns no task (no network
call), returns Ok, and appends exactly one system-role message whose
content is the authentication-error text. -/
theorem claim_C4 (ts : String) (app : AppState) (h : app.authToken = "") :
    (sendRequest ts app).spawned = false ∧
    (sendRequest ts app).retOk = true ∧
    (sendRequest ts app).state.history = popPendingTail app.history ++ [authErrorMsg ts] ∧
    (authErrorMsg ts).role = "system" ∧
    (authErrorMsg ts).content = "错误: 请先配置API认证令牌" := by
  simp [sendRequest, h, handleNewMessage, authErrorMsg]

/-- C4 witness at a concrete state with an empty token. -/
theorem claim_C4_witness :
    (sendRequest "00:00:00" c4App).spawned = false ∧
    (sendRequest "00:00:00" c4App).retOk = true ∧
    (sendRequest "00:00:00" c4App).state.history =
      popPendingTail c4App.history ++ [authErrorMsg "00:00:00"] ∧
    (authErrorMsg "00:00:00").role = "system" ∧
    (authErrorMsg "00:00:00").content = "错误: 请先配置API认证令牌" :=
  claim_C4 "00:00:00" c4App rfl

/-- C5 counterexample: an assistant-role message whose content merely
coincides with the sentinel is not the pending placeholder in the
specification's sense, yet appending to a log whose tail it is keeps the
length at 1 instead of increasing it to 2. -/
theorem claim_C5_counterexample :
    specIsPendingPlaceholder ⟨"assistant", pendingSentinel, "00:00:00"⟩ = false ∧
    ([(⟨"assistant", pendingSentinel, "00:00:00"⟩ : Message)] : List Message).length = 1 ∧
    (handleNewMessage [⟨"assistant", pendingSentinel, "00:00:00"⟩]
        ⟨"user", "hi", "00:00:01"⟩).length = 1 := by decide

/-- C5 as amended: appending when the tail's CONTENT equals the sentinel
(regardless of its role) removes exactly one entry and then inserts,
leaving the length unchanged; appending when the tail's content differs
from the sentinel, or the log is empty, strictly increases the length by
one. -/
theorem claim_C5_amended (h : List Message) (m tl : Message) :
    (h.getLast? = some tl → tl.content = pendingSentinel →
        handleNewMessage h m = h.dropLast ++ [m] ∧
        (handleNewMessage h m).length = h.length) ∧
    (h.getLast? = some tl → ¬ tl.content = pendingSentinel →
        (handleNewMessage h m).length = h.length + 1) ∧
    (h = [] → handleNewMessage h m = [m]) := by
  refine ⟨?_, ?_, ?_⟩
  · intro hlast hcontent
    have hne : h ≠ [] := by
      intro he; subst he; simp at hlast
    have hpos : 0 < h.length := List.length_pos.mpr hne
    constructor
    · simp [handleNewMessage, popPendingTail, hlast, hcontent]
    · simp only [handleNewMessage, popPendingTail, hlast, hcontent, if_pos,
        List.length_append, List.length_dropLast, List.length_cons, List.length_nil]
      omega
  · intro hlast hcontent
    simp [handleNewMessage, popPendingTail, hlast, hcontent]
  · intro he
    subst he
    simp [handleNewMessage, popPendingTail]

/-- C5 witness: appending over a genuine placeholder tail keeps the length
at one. -/
theorem claim_C5_witness :
    handleNewMessage [c5Placeholder] c5UserMsg =
      ([c5Placeholder] : List Message).dropLast ++ [c5UserMsg] ∧
    (handleNewMessage [c5Placeholder] c5UserMsg).length =
      ([c5Placeholder] : List Message).length :=
  (claim_C5_amended [c5Placeholder] c5UserMsg c5Placeholder).1 (by decide) (by decide)

/-- C9: pressing Down while input-focused with no navigation cursor
replaces the input buffer with the saved draft and clears the saved
buffer; the typed input is discarded. -/
theorem claim_C9 (s : NavState) (h : s.inputHistoryIndex = none) :
    (inputDownKey s).input = s.currentInput ∧
    (inputDownKey s).currentInput = "" ∧
    (inputDownKey s).inputHistory = s.inputHistory ∧
    (inputDownKey s).inputHistoryIndex = none := by
  simp [inputDownKey, h]

/-- C9 witness: a single Down with no cursor discards typed text. -/
theorem claim_C9_witness :
    (inputDownKey c9State).input = c9State.currentInput ∧
    (inputDownKey c9State).currentInput = "" ∧
    (inputDownKey c9State).inputHistory = c9State.inputHistory ∧
    (inputDownKey c9State).inputHistoryIndex = none :=
  claim_C9 c9State rfl

/-- C10: the placeholder check of the append operation is on content only:
a tail with the sentinel content is removed before inserting whatever its
role is, and a tail whose content differs from the sentinel is never
removed. -/
theorem claim_C10 (h : List Message) (role ts : String) (m : Message) :
    (handleNewMessage (h ++ [⟨role, pendingSentinel, ts⟩]) m = h ++ [m]) ∧
    (∀ tl : Message, h.getLast? = some tl → ¬ tl.content = pendingSentinel →
        handleNewMessage h m = h ++ [m]) := by
  constructor
  · simp [handleNewMessage, popPendingTail, List.getLast?_concat, List.dropLast_concat]
  · intro tl hlast hcontent
    simp [handleNewMessage, popPendingTail, hlast, hcontent]

/-- C10 witness: a non-sentinel tail is kept. -/
theorem claim_C10_witness :
    handleNewMessage [c10New] c10New = [c10New] ++ [c10New] :=
  (claim_C10 [c10New] "user" "00:00:00" c10New).2 c10New (by decide) (by decide)

/-- C7: the scroll-to-bottom clamp ignores the previous offset, yields 0
whenever the content fits the viewport and content minus viewport
otherwise (in particular 0 for 10/20 and 10 for 30/20); the manual scroll
actions are a saturating one-line move of the u16 offset with no clamping
against content height. -/
theorem claim_C7 :
    (∀ c v o o2, scrollToBottom c v o = scrollToBottom c v o2) ∧
    (∀ c v o, c ≤ v → scrollToBottom c v o = 0) ∧
    (∀ c v o, v < c → scrollToBottom c v o = c - v) ∧
    (∀ o, scrollToBottom 10 20 o = 0) ∧
    (∀ o, scrollToBottom 30 20 o = 10) ∧
    (∀ o, scroll true o = o - 1) ∧
    (∀ o, o < 65535 → scroll false o = o + 1) ∧
    (∀ o, 65535 ≤ o → scroll false o = 65535) := by
  refine ⟨fun c v o o2 => rfl, ?_, ?_, fun o => rfl, fun o => rfl, fun o => rfl, ?_, ?_⟩
  · intro c v o h
    simp [scrollToBottom, Nat.not_lt.mpr h]
  · intro c v o h
    simp [scrollToBottom, h]
  · intro o h
    simp [scroll]
    omega
  · intro o h
    simp [scroll]
    omega

/-- C7 witness: the clamp at content 30, viewport 20, prior offset 7. -/
theorem claim_C7_witness : scrollToBottom 30 20 7 = 30 - 20 :=
  claim_C7.2.2.1 30 20 7 (by decide)

/-- Index bound of one ModelSelect key step. -/
theorem modelSelectStep_index_le (ts : String) (k : Key) (st : ModelUIState)
    (h : st.modelSelectIndex ≤ AVAILABLE_MODELS.length - 1) :
    (modelSelectStep ts k st).modelSelectIndex ≤ AVAILABLE_MODELS.length - 1 := by
  cases k with
  | up =>
    simp only [modelSelectStep]
    split
    · simp; omega
    · exact h
  | down =>
    simp only [modelSelectStep]
    split
    · next hlt => simp; omega
    · exact h
  | enter => simpa [modelSelectStep] using h
  | esc => simpa [modelSelectStep] using h
  | tab => simpa [modelSelectStep] using h
  | backspace => simpa [modelSelectStep] using h
  | char c => simpa [modelSelectStep] using h
  | other => simpa [modelSelectStep] using h

/-- C8: in the ModelSelect modal the selection index stays within the
catalog bounds under every key sequence (Up/Down in particular); Enter
commits the catalog entry at the index as the active model, appends a
system confirmation message and closes the modal; Escape closes the modal
leaving the model and the log unchanged. -/
theorem claim_C8 (ts : String) :
    (∀ (ks : List Key) (st : ModelUIState),
        st.modelSelectIndex ≤ AVAILABLE_MODELS.length - 1 →
        (ks.foldl (fun s k => modelSelectStep ts k s) st).modelSelectIndex ≤
          AVAILABLE_MODELS.length - 1) ∧
    (∀ st : ModelUIState, st.modelSelectIndex ≤ AVAILABLE_MODELS.length - 1 →
        (modelSelectStep ts Key.enter st).currentModel =
          AVAILABLE_MODELS.getD st.modelSelectIndex "" ∧
        (modelSelectStep ts Key.enter st).currentModel ∈ AVAILABLE_MODELS ∧
        (modelSelectStep ts Key.enter st).showModelSelect = false ∧
        (modelSelectStep ts Key.enter st).history = st.history ++
          [⟨"system", "已切换到模型: " ++ AVAILABLE_MODELS.getD st.modelSelectIndex "", ts⟩]) ∧
    (∀ st : ModelUIState,
        (modelSelectStep ts Key.esc st).currentModel = st.currentModel ∧
        (modelSelectStep ts Key.esc st).showModelSelect = false ∧
        (modelSelectStep ts Key.esc st).history = st.history) := by
  refine ⟨?_, ?_, ?_⟩
  · intro ks
    induction ks with
    | nil => intro st h; exact h
    | cons k ks ih =>
      intro st h
      exact ih _ (modelSelectStep_index_le ts k st h)
  · intro st h
    have hlt : st.modelSelectIndex < AVAILABLE_MODELS.length := by
      simp only [AVAILABLE_MODELS] at h ⊢
      simp at h ⊢
      omega
    refine ⟨by simp [modelSelectStep], ?_, by simp [modelSelectStep], by simp [modelSelectStep]⟩
    have hgd : AVAILABLE_MODELS.getD st.modelSelectIndex "" =
        AVAILABLE_MODELS[st.modelSelectIndex] :=
      List.getD_eq_getElem AVAILABLE_MODELS "" hlt
    have : (modelSelectStep ts Key.enter st).currentModel =
        AVAILABLE_MODELS.getD st.modelSelectIndex "" := by simp [modelSelectStep]
    rw [this, hgd]
    exact List.getElem_mem hlt
  · intro st
    exact ⟨by simp [modelSelectStep], by simp [modelSelectStep], by simp [modelSelectStep]⟩

/-- C8 witness: from the initial position (last entry), Down then Up keep
the index in bounds. -/
theorem claim_C8_witness :
    (([Key.down, Key.up]).foldl (fun s k => modelSelectStep "00:00:00" k s)
        mcSt0).modelSelectIndex ≤ AVAILABLE_MODELS.length - 1 :=
  (claim_C8 "00:00:00").1 [Key.down, Key.up] mcSt0 (by decide)

/-- Every UTF-8 encoding takes at least one byte. -/
theorem lenUtf8_pos (c : Char) : 1 ≤ lenUtf8 c := by
  unfold lenUtf8
  repeat' split
  all_goals omega

/-- The character count of a word never exceeds its byte count. -/
theorem length_le_utf8Len (w : List Char) : w.length ≤ utf8Len w := by
  induction w with
  | nil => simp [utf8Len]
  | cons c t ih =>
    have := lenUtf8_pos c
    simp only [utf8Len, List.map_cons, List.sum_cons, List.length_cons] at *
    omega

/-- Every chunk produced by the hard-split worker has at most `width`
characters. -/
theorem chunksOfGo_length_le (width : Nat) :
    ∀ (fuel : Nat) (w : List Char), ∀ l ∈ chunksOfGo width fuel w, l.length ≤ width := by
  intro fuel
  induction fuel with
  | zero =>
    intro w l hl
    cases w <;> simp [chunksOfGo] at hl
  | succ n ih =>
    intro w l hl
    cases w with
    | nil => simp [chunksOfGo] at hl
    | cons c rest =>
      simp only [chunksOfGo, List.mem_cons] at hl
      rcases hl with rfl | hl
      · rw [List.length_take]
        exact min_le_left _ _
      · exact ih _ l hl

/-- With fuel available, the hard-split of a non-empty word is non-empty. -/
theorem chunksOfGo_ne_nil (width fuel : Nat) (c : Char) (rest : List Char)
    (hf : 0 < fuel) : chunksOfGo width fuel (c :: rest) ≠ [] := by
  cases fuel with
  | zero => omega
  | succ n => simp [chunksOfGo]

/-- With enough fuel and a positive width, every chunk before the last one
has exactly `width` characters. -/
theorem chunksOfGo_dropLast_length (width : Nat) (hw : 1 ≤ width) :
    ∀ (fuel : Nat) (w : List Char), w.length ≤ fuel →
      ∀ l ∈ (chunksOfGo width fuel w).dropLast, l.length = width := by
  intro fuel
  induction fuel with
  | zero =>
    intro w hle l hl
    have hwnil : w = [] := List.eq_nil_of_length_eq_zero (Nat.le_zero.mp hle)
    subst hwnil
    simp [chunksOfGo] at hl
  | succ n ih =>
    intro w hle l hl
    cases w with
    | nil => simp [chunksOfGo] at hl
    | cons c rest =>
      by_cases hlen : (c :: rest).length ≤ width
      · have hdrop : (c :: rest).drop width = [] := List.drop_eq_nil_of_le hlen
        simp [chunksOfGo, hdrop] at hl
      · push_neg at hlen
        have hpos : 0 < ((c :: rest).drop width).length := by
          rw [List.length_drop]
          omega
        have hlen_drop : ((c :: rest).drop width).length ≤ n := by
          rw [List.length_drop, List.length_cons]
          simp only [List.length_cons] at hle hlen
          omega
        have hchunks_ne : chunksOfGo width n ((c :: rest).drop width) ≠ [] := by
          cases hd : (c :: rest).drop width with
          | nil => rw [hd] at hpos; simp at hpos
          | cons d ds =>
            refine chunksOfGo_ne_nil width n d ds ?_
            rw [hd] at hlen_drop
            simp only [List.length_cons] at hlen_drop
            omega
        simp only [chunksOfGo] at hl
        rw [List.dropLast_cons_of_ne_nil hchunks_ne] at hl
        rcases List.mem_cons.mp hl with rfl | hl2
        · rw [List.length_take, min_eq_left (Nat.le_of_lt hlen)]
        · exact ih _ hlen_drop l hl2

/-- Chunk bound for the wrapper. -/
theorem chunksOf_length_le (width : Nat) (w : List Char) :
    ∀ l ∈ chunksOf width w, l.length ≤ width :=
  chunksOfGo_length_le width w.length w

/-- The hard-split of a non-empty word is non-empty. -/
theorem chunksOf_ne_nil (width : Nat) (w : List Char) (hne : w ≠ []) :
    chunksOf width w ≠ [] := by
  cases w with
  | nil => exact absurd rfl hne
  | cons c rest => exact chunksOfGo_ne_nil width _ c rest (by simp [List.length_cons])

/-- All chunks but the last have exactly `width` characters. -/
theorem chunksOf_dropLast_length (width : Nat) (hw : 1 ≤ width) (w : List Char) :
    ∀ l ∈ (chunksOf width w).dropLast, l.length = width :=
  chunksOfGo_dropLast_length width hw w.length w (le_refl _)

/-- One word-push preserves the line-length bound on the flushed lines and
on the current line. -/
theorem pushWord_bounded (width : Nat) (st : List (List Char) × List Char)
    (word : List Char) (h1 : ∀ l ∈ st.1, l.length ≤ width)
    (h2 : st.2.length ≤ width) :
    (∀ l ∈ (pushWord width st word).1, l.length ≤ width) ∧
    (pushWord width st word).2.length ≤ width := by
  have hwlen := length_le_utf8Len word
  have hclen := length_le_utf8Len st.2
  have hflush : ∀ l ∈ (if st.2.isEmpty then st.1 else st.1 ++ [st.2]), l.length ≤ width := by
    intro l hl
    by_cases hemp : st.2.isEmpty
    · simp only [if_pos hemp] at hl
      exact h1 l hl
    · simp only [if_neg hemp, List.mem_append, List.mem_singleton] at hl
      rcases hl with hl | rfl
      · exact h1 l hl
      · exact h2
  by_cases hcond : width < utf8Len st.2 + utf8Len word + 1
  · by_cases hbig : width < utf8Len word
    · simp only [pushWord, if_pos hcond, if_pos hbig]
      refine ⟨?_, by simp⟩
      intro l hl
      simp only [List.mem_append] at hl
      rcases hl with hl | hl
      · exact hflush l hl
      · exact chunksOf_length_le width word l hl
    · simp only [pushWord, if_pos hcond, if_neg hbig]
      exact ⟨hflush, by simp only [Nat.not_lt] at hbig; omega⟩
  · simp only [pushWord, if_neg hcond]
    refine ⟨h1, ?_⟩
    by_cases hemp : st.2.isEmpty
    · simp only [if_pos hemp]
      omega
    · simp only [if_neg hemp, List.length_append, List.length_cons]
      omega

/-- Folding the words of a line preserves the line-length bound. -/
theorem foldl_pushWord_bounded (width : Nat) :
    ∀ (words : List (List Char)) (st : List (List Char) × List Char),
      (∀ l ∈ st.1, l.length ≤ width) → st.2.length ≤ width →
      (∀ l ∈ (words.foldl (pushWord width) st).1, l.length ≤ width) ∧
      (words.foldl (pushWord width) st).2.length ≤ width := by
  intro words
  induction words with
  | nil => intro st h1 h2; exact ⟨h1, h2⟩
  | cons w ws ih =>
    intro st h1 h2
    have h := pushWord_bounded width st w h1 h2
    exact ih _ h.1 h.2

/-- Every line produced for a single input line fits the width. -/
theorem wrapLine_length_le (width : Nat) (words : List (List Char)) :
    ∀ l ∈ wrapLine width words, l.length ≤ width := by
  intro l hl
  have h := foldl_pushWord_bounded width words ([], []) (by simp) (by simp)
  simp only [wrapLine] at hl
  split at hl
  · exact h.1 l hl
  · simp only [List.mem_append, List.mem_singleton] at hl
    rcases hl with hl | rfl
    · exact h.1 l hl
    · exact h.2

/-- Every line produced by the wrapping routine fits the width. -/
theorem wrapText_length_le (width : Nat) (s : List Char) :
    ∀ l ∈ wrapText width s, l.length ≤ width := by
  intro l hl
  simp only [wrapText, List.mem_flatMap] at hl
  obtain ⟨line, _, hmem⟩ := hl
  exact wrapLine_length_le width (splitWs line) l hmem

/-- A newline-free text is a single line of `str::lines`. -/
theorem rustLinesGo_no_newline :
    ∀ (s acc : List Char), '\n' ∉ s →
      rustLinesGo s acc =
        if acc.reverse ++ s = [] then [] else [acc.reverse ++ s] := by
  intro s
  induction s with
  | nil =>
    intro acc _
    cases acc <;> simp [rustLinesGo]
  | cons c rest ih =>
    intro acc h
    have hc : ¬ c = '\n' := fun hcc => h (hcc ▸ List.mem_cons_self c rest)
    have hrest : '\n' ∉ rest := fun hm => h (List.mem_cons_of_mem c hm)
    have hswap : (c :: acc).reverse ++ rest = acc.reverse ++ (c :: rest) := by simp
    simp only [rustLinesGo, if_neg hc]
    rw [ih (c :: acc) hrest, hswap]

/-- Splitting at the first newline of `s1 ++ '\n' :: s2` when `s1` has no
newline: one stripped line, then the lines of the remainder. -/
theorem rustLinesGo_split (s2 : List Char) :
    ∀ (s1 acc : List Char), '\n' ∉ s1 →
      rustLinesGo (s1 ++ '\n' :: s2) acc =
        stripTrailingCR (acc.reverse ++ s1) :: rustLinesGo s2 [] := by
  intro s1
  induction s1 with
  | nil =>
    intro acc _
    simp [rustLinesGo]
  | cons c rest ih =>
    intro acc h
    have hc : ¬ c = '\n' := fun hcc => h (hcc ▸ List.mem_cons_self c rest)
    have hrest : '\n' ∉ rest := fun hm => h (List.mem_cons_of_mem c hm)
    have hswap : (c :: acc).reverse ++ rest = acc.reverse ++ (c :: rest) := by simp
    rw [List.cons_append]
    simp only [rustLinesGo, if_neg hc]
    rw [ih (c :: acc) hrest, hswap]

/-- Appending a trailing whitespace character does not change the word
split. -/
theorem splitWsAux_append_ws (c : Char) (hc : rustIsWhitespace c = true) :
    ∀ (l acc : List Char), splitWsAux (l ++ [c]) acc = splitWsAux l acc := by
  intro l
  induction l with
  | nil =>
    intro acc
    simp [splitWsAux, hc]
  | cons d rest ih =>
    intro acc
    rw [List.cons_append]
    simp only [splitWsAux]
    rw [ih [], ih (d :: acc)]

/-- Stripping one trailing carriage return does not change the word
split (`\r` is whitespace). -/
theorem splitWs_stripTrailingCR (l : List Char) :
    splitWs (stripTrailingCR l) = splitWs l := by
  unfold stripTrailingCR
  cases hlast : l.getLast? with
  | none => rfl
  | some c =>
    by_cases hc : c = '\r'
    · subst hc
      simp only [if_pos rfl]
      have hne : l ≠ [] := by
        intro he
        subst he
        simp at hlast
      have hgl : l.getLast hne = '\r' := by
        have := List.getLast?_eq_getLast l hne
        rw [hlast] at this
        exact (Option.some.injEq _ _ ▸ this).symm
      have hl : l.dropLast ++ ['\r'] = l := by
        have hdg := List.dropLast_append_getLast hne
        rw [hgl] at hdg
        exact hdg
      conv_rhs => rw [← hl]
      exact (splitWsAux_append_ws '\r' (by decide) l.dropLast []).symm
    · simp [hc]

/-- The wrap of the empty line is empty. -/
theorem wrapLine_nil (width : Nat) : wrapLine width (splitWs []) = [] := rfl

/-- Embedded newlines split the wrapping into independent runs. -/
theorem wrapText_newline_split (width : Nat) (s1 s2 : List Char) (hnl : '\n' ∉ s1) :
    wrapText width (s1 ++ '\n' :: s2) = wrapText width s1 ++ wrapText width s2 := by
  unfold wrapText rustLines
  rw [rustLinesGo_split s2 s1 [] hnl]
  simp only [List.reverse_nil, List.nil_append]
  rw [List.flatMap_cons]
  congr 1
  rw [splitWs_stripTrailingCR]
  rw [rustLinesGo_no_newline s1 [] hnl]
  simp only [List.reverse_nil, List.nil_append]
  by_cases hs : s1 = []
  · subst hs
    simp [wrapLine_nil]
  · rw [if_neg hs]
    simp [List.flatMap_cons]

/-- C6: for width at least 1, every produced line has at most `width`
characters; a token longer than the width is hard-split into non-empty
chunks of exactly `width` characters except a final chunk of at most
`width`; and embedded newlines are wrapped as independent lines. -/
theorem claim_C6 (width : Nat) (hw : 1 ≤ width) :
    (∀ (s : List Char), ∀ l ∈ wrapText width s, l.length ≤ width) ∧
    (∀ word : List Char, width < word.length →
        chunksOf width word ≠ [] ∧
        (∀ l ∈ (chunksOf width word).dropLast, l.length = width) ∧
        (∀ l ∈ chunksOf width word, l.length ≤ width)) ∧
    (∀ (s1 s2 : List Char), '\n' ∉ s1 →
        wrapText width (s1 ++ '\n' :: s2) = wrapText width s1 ++ wrapText width s2) := by
  refine ⟨fun s => wrapText_length_le width s, ?_,
    fun s1 s2 h => wrapText_newline_split width s1 s2 h⟩
  intro word hlen
  have hne : word ≠ [] := by
    intro he
    subst he
    simp at hlen
  exact ⟨chunksOf_ne_nil width word hne, chunksOf_dropLast_length width hw word,
    chunksOf_length_le width word⟩

/-- C6 witness: wrapping the text `ab cd` at width 3 produces the line
`ab`, which fits the width. -/
theorem claim_C6_witness :
    (['a', 'b'] : List Char) ∈ wrapText 3 ['a', 'b', ' ', 'c', 'd'] ∧
    (['a', 'b'] : List Char).length ≤ 3 :=
  have hm : (['a', 'b'] : List Char) ∈ wrapText 3 ['a', 'b', ' ', 'c', 'd'] := by decide
  ⟨hm, (claim_C6 3 (by decide)).1 ['a', 'b', ' ', 'c', 'd'] ['a', 'b'] hm⟩

end LlmTui
